import Mathlib

/-!
Shallow embedding of the real-time audio analysis engine (Go sources) and
proofs of the specification claims about it.

Conventions of the embedding:
* Go `int` / `int32` / `int64` values are represented as `Int`; where Go's
  fixed-width overflow semantics matter, results are wrapped explicitly
  (`wrap32`, `wrap64`) to the signed 32/64-bit range.
* Go `float64` values that only ever feed order comparisons, clamping and
  exact dyadic arithmetic are represented as `ℚ`.
* External library calls (the gonum FFT, the gonum window coefficient
  tables, Go's `math/cmplx.Abs` and the `float64 → float32` conversion) are
  uninterpreted function parameters: the theorems hold for every choice of
  these functions, so no property proved here depends on their numerics.
* Writes into pre-allocated Go slices are modelled by `overwrite`, which
  keeps the destination length like an in-place slice write does.
* Mutexes, goroutines and sockets are dropped: all modelled operations are
  sequential state transformers, matching the discipline the source
  documents (single writer, short-lived readers).
-/

namespace bitint

/-- Two's-complement wrap of an unbounded integer into the signed 64-bit
range `[-2^63, 2^63)`, the value a Go `int` holds on a 64-bit platform. -/
def wrap64 (x : Int) : Int := (x + 2 ^ 63) % 2 ^ 64 - 2 ^ 63

/-- Two's-complement wrap into the signed 32-bit range `[-2^31, 2^31)`,
the value a Go `int32` holds. -/
def wrap32 (x : Int) : Int := (x + 2 ^ 31) % 2 ^ 32 - 2 ^ 31

/-- `IsPowerOfTwo` from `pkg/bitint/pow2.go`: `n > 0 && (n&(n-1)) == 0`.
For `n > 0` the two's-complement `&` equals `Nat.land` on the magnitudes,
which is how the bitwise AND is expressed here; for `n ≤ 0` the `&&`
short-circuits exactly as in the source. -/
def IsPowerOfTwo (n : Int) : Bool :=
  decide (0 < n) && decide (Nat.land n.toNat (n.toNat - 1) = 0)

/-- `NextPowerOfTwo` from `pkg/bitint/pow2.go` (64-bit platform branch):
`1 << bits.Len64(uint64(size-1))` for `size > 0`, else `1`.  `bits.Len64`
is `Nat.size`, and the shift result is wrapped to the signed 64-bit range
exactly as Go's `int` conversion does. -/
def NextPowerOfTwo (size : Int) : Int :=
  if size ≤ 0 then 1
  else wrap64 (2 ^ Nat.size (Int.toNat (size - 1)))

end bitint

namespace audio

/-- Arithmetic (sign-extending) right shift of an `int32` value, as used by
`sample >> 31` in the hot-path peak computation: floor division by `2^k`. -/
def shiftRightA (x : Int) (k : Nat) : Int := Int.fdiv x (2 ^ k)

/-- Two's-complement bitwise XOR on `int32` values, computed on the
unsigned 32-bit residues. -/
def xor32 (a b : Int) : Int :=
  bitint.wrap32 ((Nat.xor (a % 2 ^ 32).toNat (b % 2 ^ 32).toNat : Nat) : Int)

/-- Two's-complement bitwise AND on `int32` values, computed on the
unsigned 32-bit residues. -/
def land32 (a b : Int) : Int :=
  bitint.wrap32 ((Nat.land (a % 2 ^ 32).toNat (b % 2 ^ 32).toNat : Nat) : Int)

/-- Branchless absolute value of an `int32` sample, from the hot path
(`engine_test.go`, spec §4.E): `mask := s >> 31; abs := (s ^ mask) - mask`. -/
def absBranchless (sample : Int) : Int :=
  bitint.wrap32 (xor32 sample (shiftRightA sample 31) - shiftRightA sample 31)

/-- Branchless maximum update of the running peak, from the hot path
(`engine_test.go`, spec §4.E):
`diff := amp - max; max += (diff & (diff >> 31)) ^ diff`. -/
def maxBranchless (curMax amplitude : Int) : Int :=
  bitint.wrap32
    (curMax + xor32 (land32 (bitint.wrap32 (amplitude - curMax))
        (shiftRightA (bitint.wrap32 (amplitude - curMax)) 31))
      (bitint.wrap32 (amplitude - curMax)))

/-- The branchless peak of a capture buffer: starting from `0`, fold the
branchless absolute value and maximum over the samples, exactly as the
hot-path loop does. -/
def computePeak (buf : List Int) : Int :=
  buf.foldl (fun m s => maxBranchless m (absBranchless s)) 0

end audio

/-- Models an in-place write of the values of `src` into the front of the
pre-allocated buffer `dst`: the result always keeps `dst`'s length, like a
Go slice written element by element. -/
def overwrite {α : Type} (dst src : List α) : List α :=
  src.take dst.length ++ dst.drop src.length

namespace analysis

/-- The FFT window function selector from `fft.go` (`WindowFunc`). -/
inductive WindowFunc : Type
  | BartlettHann
  | Blackman
  | BlackmanNuttall
  | Hann
  | Hamming
  | Lanczos
  | Nuttall
deriving DecidableEq

/-- Pre-allocated buffers for FFT calculations (`fftWorkspace`).  The
`sync.RWMutex` field of the source is dropped: the model is sequential. -/
structure fftWorkspace : Type where
  input : List ℚ
  fftOutput : List (ℚ × ℚ)
  magnitude : List ℚ
  window : List ℚ

/-- The FFT processor (`FFTProcessor`).  `fftCalculator` stands for the
reusable gonum `fourier.FFT` instance: an uninterpreted function from the
windowed real input to complex coefficients. -/
structure FFTProcessor : Type where
  fftCalculator : List ℚ → List (ℚ × ℚ)
  fftSize : Int
  sampleRate : ℚ
  workspace : fftWorkspace

/-- `applyWindow` from `fft.go`: initialize every coefficient to `1.0`,
then let the selected gonum window multiply each coefficient in place.
The gonum window tables are uninterpreted: `windowGain kind n i` is the
factor the library multiplies into position `i` of an `n`-point window.
The `WindowFunc` inductive is exhaustive, so the source's `default:`
branch (unknown kind falls back to Hann) has no representable input. -/
def applyWindow (windowGain : WindowFunc → Nat → Nat → ℚ) (coeffs : List ℚ)
    (windowType : WindowFunc) : List ℚ :=
  (coeffs.map (fun _ => (1 : ℚ))).mapIdx
    (fun i c => c * windowGain windowType coeffs.length i)

/-- `NewFFTProcessor` from `fft.go`.  `newFFT` stands for the external
`fourier.NewFFT`; `windowGain` for the gonum window tables.  Fails when
the FFT size is not a positive power of two or the sample rate is not
positive; otherwise pre-allocates every workspace buffer. -/
def NewFFTProcessor (newFFT : Int → List ℚ → List (ℚ × ℚ))
    (windowGain : WindowFunc → Nat → Nat → ℚ)
    (fftSize : Int) (sampleRate : ℚ) (windowType : WindowFunc) :
    Except String FFTProcessor :=
  if bitint.IsPowerOfTwo fftSize = false then
    Except.error "fft size must be a power of 2"
  else if sampleRate ≤ 0 then
    Except.error "sample rate must be positive"
  else
    Except.ok
      { fftCalculator := newFFT fftSize
        fftSize := fftSize
        sampleRate := sampleRate
        workspace :=
          { input := List.replicate fftSize.toNat 0
            fftOutput := List.replicate (Int.toNat (fftSize / 2 + 1)) (0, 0)
            magnitude := List.replicate (Int.toNat (fftSize / 2 + 1)) 0
            window := applyWindow windowGain (List.replicate fftSize.toNat 0) windowType } }

/-- The input-preparation loop of `Process`: for `i` in `[0, fftSize)`,
`input[i] = float64(buf[i]) * (1 / 2^31) * window[i]` when `i` is inside
the caller's buffer, and `0` (zero padding) otherwise. -/
def windowedInput (p : FFTProcessor) (inputBuffer : List Int) : List ℚ :=
  (List.range p.fftSize.toNat).map (fun i =>
    if i < inputBuffer.length then
      ((inputBuffer.getD i 0 : Int) : ℚ) * (1 / 2 ^ 31) * p.workspace.window.getD i 0
    else 0)

/-- `Process` from `fft.go`: window and normalize the input (zero-padding
a short buffer, ignoring samples past `fftSize`), run the FFT into the
pre-allocated `fftOutput` buffer, then write `|c|` of each coefficient
into the pre-allocated `magnitude` buffer.  `cabs` stands for the external
`cmplx.Abs`. -/
def Process (cabs : ℚ × ℚ → ℚ) (p : FFTProcessor) (inputBuffer : List Int) :
    FFTProcessor :=
  { p with workspace :=
    { input := windowedInput p inputBuffer
      fftOutput := overwrite p.workspace.fftOutput (p.fftCalculator (windowedInput p inputBuffer))
      magnitude := overwrite p.workspace.magnitude
        ((overwrite p.workspace.fftOutput (p.fftCalculator (windowedInput p inputBuffer))).map cabs)
      window := p.workspace.window } }

/-- `GetMagnitudes` from `fft.go`: a copy of the latest magnitudes.  In
the functional model the copy is the list value itself. -/
def GetMagnitudes (p : FFTProcessor) : List ℚ :=
  p.workspace.magnitude

/-- `GetMagnitudesInto` from `fft.go`: error when the destination length
differs from the magnitude buffer's length (leaving `dest` untouched),
otherwise copy the magnitudes into `dest`.  Returns the new contents of
`dest` together with the optional error. -/
def GetMagnitudesInto (p : FFTProcessor) (dest : List ℚ) :
    List ℚ × Option String :=
  if dest.length ≠ p.workspace.magnitude.length then
    (dest, some "destination slice length does not match required length")
  else
    (overwrite dest p.workspace.magnitude, none)

/-- `GetFrequencyForBin` from `fft.go`: `0.0` outside `[0, len(fftOutput))`,
otherwise `binIndex * (sampleRate / fftSize)`. -/
def GetFrequencyForBin (p : FFTProcessor) (binIndex : Int) : ℚ :=
  if binIndex < 0 ∨ (p.workspace.fftOutput.length : Int) ≤ binIndex then 0
  else (binIndex : ℚ) * (p.sampleRate / (p.fftSize : ℚ))

/-- `GetFFTSize` from `fft.go`. -/
def GetFFTSize (p : FFTProcessor) : Int := p.fftSize

/-- `GetSampleRate` from `fft.go`. -/
def GetSampleRate (p : FFTProcessor) : ℚ := p.sampleRate

end analysis

namespace audio

/-- The noise-gate state of the audio `Engine` (the fields referenced by
the gate control methods and by `engine_test.go`): `gateEnabled : bool`
and `gateThreshold : int32`. -/
structure Engine : Type where
  gateEnabled : Bool
  gateThreshold : Int

/-- `EnableGate` from the engine gate controls. -/
def EnableGate (e : Engine) : Engine := { e with gateEnabled := true }

/-- `DisableGate` from the engine gate controls. -/
def DisableGate (e : Engine) : Engine := { e with gateEnabled := false }

/-- Go's conversion of a non-negative `float64` to an integer type:
truncation toward zero, which on non-negative values is the floor. -/
def goTrunc (q : ℚ) : Int := if q < 0 then -Int.floor (-q) else Int.floor q

/-- `SetGateThreshold` from the engine gate controls: clamp the ratio to
`[0, 1]`, then store `int32(threshold * math.MaxInt32)`. -/
def SetGateThreshold (e : Engine) (threshold : ℚ) : Engine :=
  { e with gateThreshold :=
      goTrunc ((if (if threshold < 0 then 0 else threshold) > 1 then 1
                else if threshold < 0 then 0 else threshold) * 2147483647) }

/-- `GetGateThreshold` from the engine gate controls:
`float64(gateThreshold) / float64(math.MaxInt32)`. -/
def GetGateThreshold (e : Engine) : ℚ :=
  (e.gateThreshold : ℚ) / 2147483647

/-- Modelled from the spec: the gate decision inside the audio callback.
The `src/` copies of `Engine.processInputStream` run every registered
processor unconditionally and carry no gate fields; the gate-aware
callback itself is not under `src/` (only its control methods in the
gate-control file and the hot-path loop replicated by `engine_test.go`
are).  Per spec §4.E the callback computes the branchless peak of the
capture buffer and invokes the FFT processor's `Process` iff the gate is
disabled or the peak exceeds the stored `int32` threshold. -/
def processInputStreamGated (cabs : ℚ × ℚ → ℚ) (e : Engine)
    (p : analysis.FFTProcessor) (inputBuffer : List Int) :
    analysis.FFTProcessor × Bool :=
  if !e.gateEnabled || decide (computePeak inputBuffer > e.gateThreshold) then
    (analysis.Process cabs p inputBuffer, true)
  else
    (p, false)

end audio

namespace udp

/-- The fields of `UDPSender` that survive in the sequential model: the
resolved target address and the single-shot closed flag.  The socket and
mutex are external. -/
structure UDPSender : Type where
  targetAddr : String
  closed : Bool

/-- Big-endian byte encoding of the low `8*w` bits of a natural number:
`w` bytes, most significant first. -/
def beBytes : Nat → Nat → List Nat
  | 0, _ => []
  | w + 1, v => beBytes w (v / 256) ++ [v % 256]

/-- `binary.Write` of a `uint32` in big-endian order. -/
def beUint32 (v : Nat) : List Nat := beBytes 4 v

/-- `binary.Write` of an `int64` in big-endian order: the two's-complement
residue of the integer, in eight bytes. -/
def beInt64 (t : Int) : List Nat := beBytes 8 (t % 2 ^ 64).toNat

/-- `binary.Write` of a `uint16` in big-endian order. -/
def beUint16 (v : Nat) : List Nat := beBytes 2 v

/-- Big-endian decoding of a byte list, the reader's view of a packet
field. -/
def decodeBe (bs : List Nat) : Nat := bs.foldl (fun a b => a * 256 + b) 0

/-- `UDPPublisher` from `publisher.go`.  The ticker, done channel,
`sync.Once`, wait group and mutex manage the goroutine lifecycle and are
dropped from the sequential model.  `udpF32Buffer` holds the bit patterns
of the converted `float32` values. -/
structure UDPPublisher : Type where
  sender : UDPSender
  fftProc : analysis.FFTProcessor
  interval : Int
  sequenceNum : Nat
  udpMagBuffer : List ℚ
  udpF32Buffer : List Nat
  packetBuffer : List Nat

/-- `NewUDPPublisher` from `publisher.go`: nil sender and nil FFT
processor are rejected (modelled by `Option` arguments), a non-positive
interval defaults to 16ms, and the scratch buffers are pre-allocated with
`fftSize/2 + 1` entries. -/
def NewUDPPublisher (interval : Int) (sender : Option UDPSender)
    (fftProc : Option analysis.FFTProcessor) : Except String UDPPublisher :=
  match sender, fftProc with
  | none, _ => Except.error "UDPPublisher: UDP sender cannot be nil"
  | some _, none => Except.error "UDPPublisher: FFT processor cannot be nil"
  | some s, some fp =>
    Except.ok
      { sender := s
        fftProc := fp
        interval := if interval ≤ 0 then 16000000 else interval
        sequenceNum := 0
        udpMagBuffer := List.replicate (Int.toNat (analysis.GetFFTSize fp / 2 + 1)) 0
        udpF32Buffer := List.replicate (Int.toNat (analysis.GetFFTSize fp / 2 + 1)) 0
        packetBuffer := [] }

/-- `buildAndSendPacket` from `publisher.go`, for one tick at wall-clock
time `now`.  `float32bits` stands for Go's `float32(v)` conversion,
returning the 32-bit pattern of the converted value.  Fetch the latest
magnitudes into the pre-allocated buffer (on error skip the tick), resize
the `float32` scratch buffer if its length disagrees, convert, increment
the `uint32` sequence number, pack the big-endian header and payload into
the reset packet buffer, and hand the bytes to the sender.  Returns the
updated publisher and the bytes handed to `sender.Send` (none when the
tick was skipped); `binary.Write` into a `bytes.Buffer` cannot fail. -/
def buildAndSendPacket (float32bits : ℚ → Nat) (now : Int)
    (p : UDPPublisher) : UDPPublisher × Option (List Nat) :=
  match analysis.GetMagnitudesInto p.fftProc p.udpMagBuffer with
  | (_, some _) => (p, none)
  | (magBuf, none) =>
    let f32Resized := if p.udpF32Buffer.length ≠ magBuf.length then
        List.replicate magBuf.length 0 else p.udpF32Buffer
    let f32Buffer := overwrite f32Resized (magBuf.map float32bits)
    let sequenceNum := (p.sequenceNum + 1) % 2 ^ 32
    let magnitudeCount := f32Buffer.length % 2 ^ 16
    let packetBytes := beUint32 sequenceNum ++ beInt64 now ++
      beUint16 magnitudeCount ++ f32Buffer.flatMap (beBytes 4)
    ({ p with sequenceNum := sequenceNum
              udpMagBuffer := magBuf
              udpF32Buffer := f32Buffer
              packetBuffer := packetBytes }, some packetBytes)

/-- One publisher session between `Start` and `Stop`: the goroutine's
ticker loop runs `buildAndSendPacket` once per tick.  `timestamps` gives
the wall-clock reading of each tick; the result collects the publisher
state after the session and every packet handed to the sender, in order. -/
def runTicks (float32bits : ℚ → Nat) (p : UDPPublisher) :
    List Int → UDPPublisher × List (List Nat)
  | [] => (p, [])
  | t :: ts =>
    let step := buildAndSendPacket float32bits t p
    let rest := runTicks float32bits step.1 ts
    (rest.1, match step.2 with
      | none => rest.2
      | some pkt => pkt :: rest.2)

/-- The sequence-number field carried by a packet: the big-endian decode
of its first four bytes. -/
def packetSeq (pkt : List Nat) : Nat := decodeBe (pkt.take 4)

end udp

/-- A concrete stand-in for the external FFT calculator, used to evaluate
the model at concrete inputs. -/
def sampleCalc : List ℚ → List (ℚ × ℚ) := fun _ => []

/-- A concrete stand-in for `fourier.NewFFT`. -/
def sampleNewFFT : Int → List ℚ → List (ℚ × ℚ) := fun _ => sampleCalc

/-- A concrete stand-in for the external gonum window tables. -/
def sampleGain : analysis.WindowFunc → Nat → Nat → ℚ := fun _ _ _ => 1

/-- A concrete stand-in for `cmplx.Abs`. -/
def sampleCabs : ℚ × ℚ → ℚ := fun _ => 0

/-- A concrete stand-in for the `float64 → float32` conversion. -/
def f32zero : ℚ → Nat := fun _ => 0

/-- The processor a successful `NewFFTProcessor` call with `fftSize = 8`,
`sampleRate = 44100` and a Hann window builds from the concrete external
stand-ins. -/
def sampleProc8 : analysis.FFTProcessor :=
  { fftCalculator := sampleCalc
    fftSize := 8
    sampleRate := 44100
    workspace :=
      { input := List.replicate 8 0
        fftOutput := List.replicate 5 (0, 0)
        magnitude := List.replicate 5 0
        window := analysis.applyWindow sampleGain (List.replicate 8 0)
          analysis.WindowFunc.Hann } }

/-- The processor a successful `NewFFTProcessor` call with `fftSize = 1024`
and `sampleRate = 44100` builds from the concrete external stand-ins. -/
def sampleProc1024 : analysis.FFTProcessor :=
  { fftCalculator := sampleCalc
    fftSize := 1024
    sampleRate := 44100
    workspace :=
      { input := List.replicate 1024 0
        fftOutput := List.replicate 513 (0, 0)
        magnitude := List.replicate 513 0
        window := analysis.applyWindow sampleGain (List.replicate 1024 0)
          analysis.WindowFunc.Hann } }

/-- The processor a successful `NewFFTProcessor` call with
`fftSize = 131072 = 2^17` builds: its magnitude buffer holds
`65537 = 2^16 + 1` entries, one more than `uint16` can count. -/
def bigProc : analysis.FFTProcessor :=
  { fftCalculator := sampleCalc
    fftSize := 131072
    sampleRate := 44100
    workspace :=
      { input := List.replicate 131072 0
        fftOutput := List.replicate 65537 (0, 0)
        magnitude := List.replicate 65537 0
        window := analysis.applyWindow sampleGain (List.replicate 131072 0)
          analysis.WindowFunc.Hann } }

/-- A concrete sender value. -/
def sampleSender : udp.UDPSender := { targetAddr := "127.0.0.1:9090", closed := false }

/-- The publisher `NewUDPPublisher` builds over `sampleProc8` at a 33ms
interval. -/
def samplePub : udp.UDPPublisher :=
  { sender := sampleSender
    fftProc := sampleProc8
    interval := 33000000
    sequenceNum := 0
    udpMagBuffer := List.replicate 5 0
    udpF32Buffer := List.replicate 5 0
    packetBuffer := [] }

/-- The publisher `NewUDPPublisher` builds over `bigProc`: each tick
carries `65537` magnitudes, overflowing the `uint16` count field. -/
def bigPub : udp.UDPPublisher :=
  { sender := sampleSender
    fftProc := bigProc
    interval := 33000000
    sequenceNum := 0
    udpMagBuffer := List.replicate 65537 0
    udpF32Buffer := List.replicate 65537 0
    packetBuffer := [] }

/-! ### Helper lemmas -/

theorem overwrite_length {α : Type} (dst src : List α) :
    (overwrite dst src).length = dst.length := by
  simp only [overwrite, List.length_append, List.length_take, List.length_drop]
  omega

theorem overwrite_of_length_eq {α : Type} {dst src : List α}
    (h : dst.length = src.length) : overwrite dst src = src := by
  unfold overwrite
  rw [h, List.take_length, List.drop_eq_nil_of_le h.le, List.append_nil]

theorem applyWindow_length (windowGain : analysis.WindowFunc → Nat → Nat → ℚ)
    (coeffs : List ℚ) (wt : analysis.WindowFunc) :
    (analysis.applyWindow windowGain coeffs wt).length = coeffs.length := by
  simp [analysis.applyWindow]

theorem isPowerOfTwo_pos {n : Int} (h : bitint.IsPowerOfTwo n = true) : 0 < n := by
  unfold bitint.IsPowerOfTwo at h
  exact of_decide_eq_true (Bool.and_elim_left h)

theorem bool_true_of_ne_false {b : Bool} (h : ¬ b = false) : b = true := by
  cases b
  · exact absurd rfl h
  · rfl

/-- Characterization of a successful `NewFFTProcessor`: the checks pass
and the result record is the pre-allocated workspace. -/
theorem newFFT_ok_iff (newFFT : Int → List ℚ → List (ℚ × ℚ))
    (windowGain : analysis.WindowFunc → Nat → Nat → ℚ)
    (fftSize : Int) (sampleRate : ℚ) (wt : analysis.WindowFunc) :
    (analysis.NewFFTProcessor newFFT windowGain fftSize sampleRate wt).isOk = true ↔
      (bitint.IsPowerOfTwo fftSize = true ∧ 0 < sampleRate) := by
  unfold analysis.NewFFTProcessor
  by_cases h1 : bitint.IsPowerOfTwo fftSize = false
  · rw [if_pos h1]
    simp [Except.isOk, Except.toBool, h1]
  · by_cases h2 : sampleRate ≤ 0
    · simp [h1, h2, Except.isOk, Except.toBool, not_lt.mpr h2]
    · simp [h1, h2, Except.isOk, Except.toBool, not_le.mp h2,
        bool_true_of_ne_false h1]

theorem newFFT_ok_elim {newFFT : Int → List ℚ → List (ℚ × ℚ)}
    {windowGain : analysis.WindowFunc → Nat → Nat → ℚ}
    {fftSize : Int} {sampleRate : ℚ} {wt : analysis.WindowFunc}
    {p : analysis.FFTProcessor}
    (h : analysis.NewFFTProcessor newFFT windowGain fftSize sampleRate wt =
      Except.ok p) :
    p.fftSize = fftSize ∧ p.sampleRate = sampleRate ∧
    p.fftCalculator = newFFT fftSize ∧
    p.workspace.input = List.replicate fftSize.toNat 0 ∧
    p.workspace.fftOutput = List.replicate (Int.toNat (fftSize / 2 + 1)) (0, 0) ∧
    p.workspace.magnitude = List.replicate (Int.toNat (fftSize / 2 + 1)) 0 ∧
    p.workspace.window =
      analysis.applyWindow windowGain (List.replicate fftSize.toNat 0) wt ∧
    bitint.IsPowerOfTwo fftSize = true ∧ 0 < sampleRate := by
  unfold analysis.NewFFTProcessor at h
  by_cases h1 : bitint.IsPowerOfTwo fftSize = false
  · rw [if_pos h1] at h; exact absurd h (by simp)
  · rw [if_neg h1] at h
    by_cases h2 : sampleRate ≤ 0
    · rw [if_pos h2] at h; exact absurd h (by simp)
    · rw [if_neg h2] at h
      cases h
      exact ⟨rfl, rfl, rfl, rfl, rfl, rfl, rfl, bool_true_of_ne_false h1,
        not_le.mp h2⟩

theorem process_magnitude_length (cabs : ℚ × ℚ → ℚ)
    (p : analysis.FFTProcessor) (buf : List Int) :
    (analysis.Process cabs p buf).workspace.magnitude.length =
      p.workspace.magnitude.length := by
  simp [analysis.Process, overwrite_length]

theorem process_fftSize (cabs : ℚ × ℚ → ℚ) (p : analysis.FFTProcessor)
    (buf : List Int) : (analysis.Process cabs p buf).fftSize = p.fftSize := rfl

theorem foldl_process_magnitude_length (cabs : ℚ × ℚ → ℚ)
    (bufs : List (List Int)) :
    ∀ p : analysis.FFTProcessor,
      ((bufs.foldl (analysis.Process cabs) p).workspace.magnitude.length) =
        p.workspace.magnitude.length := by
  induction bufs with
  | nil => intro p; rfl
  | cons b bs ih =>
    intro p
    rw [List.foldl_cons, ih, process_magnitude_length]

theorem foldl_process_fftSize (cabs : ℚ × ℚ → ℚ) (bufs : List (List Int)) :
    ∀ p : analysis.FFTProcessor,
      (bufs.foldl (analysis.Process cabs) p).fftSize = p.fftSize := by
  induction bufs with
  | nil => intro p; rfl
  | cons b bs ih =>
    intro p
    rw [List.foldl_cons, ih, process_fftSize]

theorem process_congr (cabs : ℚ × ℚ → ℚ) (p : analysis.FFTProcessor)
    {b1 b2 : List Int}
    (h : analysis.windowedInput p b1 = analysis.windowedInput p b2) :
    analysis.Process cabs p b1 = analysis.Process cabs p b2 := by
  unfold analysis.Process
  rw [h]

theorem windowedInput_take (p : analysis.FFTProcessor) (buf : List Int) :
    analysis.windowedInput p buf =
      analysis.windowedInput p (buf.take p.fftSize.toNat) := by
  unfold analysis.windowedInput
  apply List.map_congr_left
  intro i hi
  rw [List.mem_range] at hi
  by_cases hb : i < buf.length
  · have hb' : i < (buf.take p.fftSize.toNat).length := by
      rw [List.length_take]; omega
    rw [if_pos hb, if_pos hb', List.getD_eq_getElem _ _ hb,
      List.getD_eq_getElem _ _ hb', List.getElem_take]
  · have hb' : ¬ i < (buf.take p.fftSize.toNat).length := by
      rw [List.length_take]; omega
    rw [if_neg hb, if_neg hb']

theorem windowedInput_zero_pad (p : analysis.FFTProcessor) (buf : List Int) :
    (analysis.windowedInput p buf).drop buf.length =
      List.replicate (p.fftSize.toNat - buf.length) 0 := by
  apply List.ext_getElem
  · simp [analysis.windowedInput]
  · intro k h1 h2
    have hk : buf.length + k < p.fftSize.toNat := by
      simp [analysis.windowedInput] at h1
      omega
    rw [List.getElem_drop, List.getElem_replicate]
    unfold analysis.windowedInput
    rw [List.getElem_map, List.getElem_range, if_neg (by omega)]

theorem nat_land_two_pow_sub_one (k : Nat) :
    Nat.land (2 ^ k) (2 ^ k - 1) = 0 := by
  show (2 : Nat) ^ k &&& (2 ^ k - 1) = 0
  rw [Nat.two_pow_and, Nat.testBit_two_pow_sub_one]
  simp

theorem isPowerOfTwo_two_pow (k : Nat) :
    bitint.IsPowerOfTwo ((2 : Int) ^ k) = true := by
  unfold bitint.IsPowerOfTwo
  have htn : ((2 : Int) ^ k).toNat = 2 ^ k := by
    rw [show ((2 : Int) ^ k) = ((2 ^ k : Nat) : Int) by push_cast; ring,
      Int.toNat_natCast]
  rw [htn]
  rw [Bool.and_eq_true, decide_eq_true_eq, decide_eq_true_eq]
  exact ⟨by positivity, nat_land_two_pow_sub_one k⟩

theorem nat_testBit_of_between {x k : Nat} (hlo : 2 ^ k ≤ x)
    (hhi : x < 2 ^ (k + 1)) : x.testBit k = true := by
  have hpos : 0 < 2 ^ k := Nat.pos_pow_of_pos k (by norm_num)
  have hdiv1 : 1 ≤ x / 2 ^ k := (Nat.one_le_div_iff hpos).mpr hlo
  have hdiv2 : x / 2 ^ k < 2 := by
    rw [Nat.div_lt_iff_lt_mul hpos]
    calc x < 2 ^ (k + 1) := hhi
    _ = 2 * 2 ^ k := by ring
  have : x / 2 ^ k = 1 := by omega
  rw [Nat.testBit_to_div_mod, this]
  decide

theorem isPowerOfTwo_elim {m : Int} (h : bitint.IsPowerOfTwo m = true) :
    ∃ k : Nat, m = 2 ^ k := by
  unfold bitint.IsPowerOfTwo at h
  rw [Bool.and_eq_true, decide_eq_true_eq, decide_eq_true_eq] at h
  obtain ⟨hm, hland⟩ := h
  have hmx : ((m.toNat : Nat) : Int) = m := Int.toNat_of_nonneg hm.le
  have hx0 : 0 < m.toNat := by omega
  have hs : 0 < m.toNat.size := Nat.size_pos.mpr hx0
  have hub : m.toNat < 2 ^ (m.toNat.size - 1 + 1) := by
    apply Nat.size_le.mp
    omega
  have hlb : 2 ^ (m.toNat.size - 1) ≤ m.toNat := Nat.lt_size.mp (by omega)
  have hx2 : m.toNat = 2 ^ (m.toNat.size - 1) := by
    by_contra hne
    have hgt : 2 ^ (m.toNat.size - 1) < m.toNat := lt_of_le_of_ne hlb (Ne.symm hne)
    have hb1 : m.toNat.testBit (m.toNat.size - 1) = true :=
      nat_testBit_of_between hlb hub
    have hb2 : (m.toNat - 1).testBit (m.toNat.size - 1) = true :=
      nat_testBit_of_between (by omega) (by omega)
    have hz : (Nat.land m.toNat (m.toNat - 1)).testBit (m.toNat.size - 1) = true := by
      rw [show Nat.land m.toNat (m.toNat - 1) = m.toNat &&& (m.toNat - 1) from rfl,
        Nat.testBit_land, hb1, hb2]
      rfl
    rw [hland, Nat.zero_testBit] at hz
    exact absurd hz (by simp)
  refine ⟨m.toNat.size - 1, ?_⟩
  calc m = ((m.toNat : Nat) : Int) := hmx.symm
  _ = ((2 ^ (m.toNat.size - 1) : Nat) : Int) := Nat.cast_inj.mpr hx2
  _ = 2 ^ (m.toNat.size - 1) := by push_cast; ring

theorem wrap64_of_range {x : Int} (h0 : 0 ≤ x) (h1 : x < 2 ^ 63) :
    bitint.wrap64 x = x := by
  unfold bitint.wrap64
  rw [Int.emod_eq_of_lt (by omega) (by omega)]
  ring

theorem beBytes_length (w v : Nat) : (udp.beBytes w v).length = w := by
  induction w generalizing v with
  | zero => rfl
  | succ w ih => simp [udp.beBytes, ih]

theorem decodeBe_beBytes (w v : Nat) :
    udp.decodeBe (udp.beBytes w v) = v % 256 ^ w := by
  induction w generalizing v with
  | zero => simp [udp.beBytes, udp.decodeBe, Nat.mod_one]
  | succ w ih =>
    have hsplit : udp.decodeBe (udp.beBytes w (v / 256) ++ [v % 256]) =
        udp.decodeBe (udp.beBytes w (v / 256)) * 256 + v % 256 := by
      unfold udp.decodeBe
      rw [List.foldl_append]
      rfl
    rw [udp.beBytes, hsplit, ih]
    have hmul : v % 256 ^ (w + 1) = v % 256 + 256 * (v / 256 % 256 ^ w) := by
      have h256 : (256 : Nat) ^ (w + 1) = 256 * 256 ^ w := by ring
      rw [h256, Nat.mod_mul]
    omega

theorem flatMap_beBytes4_length (l : List Nat) :
    (l.flatMap (udp.beBytes 4)).length = 4 * l.length := by
  induction l with
  | nil => rfl
  | cons a l ih =>
    rw [List.flatMap_cons, List.length_append, ih, beBytes_length,
      List.length_cons]
    ring

/-- Field extraction from a packed publisher packet: the header slices
recover the three encoded fields and the total length is `14`, plus the
payload. -/
theorem packet_fields (a : Nat) (b : Int) (c : Nat) (rest : List Nat) :
    (udp.beUint32 a ++ udp.beInt64 b ++ udp.beUint16 c ++ rest).take 4 =
      udp.beUint32 a ∧
    ((udp.beUint32 a ++ udp.beInt64 b ++ udp.beUint16 c ++ rest).drop 4).take 8 =
      udp.beInt64 b ∧
    ((udp.beUint32 a ++ udp.beInt64 b ++ udp.beUint16 c ++ rest).drop 12).take 2 =
      udp.beUint16 c ∧
    (udp.beUint32 a ++ udp.beInt64 b ++ udp.beUint16 c ++ rest).length =
      14 + rest.length := by
  have h4 : (udp.beUint32 a).length = 4 := beBytes_length 4 _
  have h8 : (udp.beInt64 b).length = 8 := beBytes_length 8 _
  have h2 : (udp.beUint16 c).length = 2 := beBytes_length 2 _
  refine ⟨?_, ?_, ?_, ?_⟩
  · rw [List.append_assoc, List.append_assoc, List.take_left' h4]
  · rw [List.append_assoc, List.append_assoc, List.drop_left' h4,
      List.take_left' h8]
  · rw [show udp.beUint32 a ++ udp.beInt64 b ++ udp.beUint16 c ++ rest =
      (udp.beUint32 a ++ udp.beInt64 b) ++ (udp.beUint16 c ++ rest) by
        simp [List.append_assoc]]
    rw [List.drop_left' (by rw [List.length_append, h4, h8]),
      List.take_left' h2]
  · simp only [List.length_append, h4, h8, h2]

theorem getMagnitudesInto_of_length {p : analysis.FFTProcessor}
    {dest : List ℚ} (h : dest.length = p.workspace.magnitude.length) :
    analysis.GetMagnitudesInto p dest = (p.workspace.magnitude, none) := by
  unfold analysis.GetMagnitudesInto
  rw [if_neg (by omega)]
  rw [overwrite_of_length_eq h]

/-- A publisher whose magnitude scratch buffer matches the processor's
magnitude buffer sends on every tick; this unfolds one successful tick. -/
theorem buildAndSendPacket_of_wf (f32 : ℚ → Nat) (now : Int)
    (p : udp.UDPPublisher)
    (hlen : p.udpMagBuffer.length = p.fftProc.workspace.magnitude.length) :
    udp.buildAndSendPacket f32 now p =
      ({ p with
          sequenceNum := (p.sequenceNum + 1) % 2 ^ 32
          udpMagBuffer := p.fftProc.workspace.magnitude
          udpF32Buffer := p.fftProc.workspace.magnitude.map f32
          packetBuffer :=
            udp.beUint32 ((p.sequenceNum + 1) % 2 ^ 32) ++ udp.beInt64 now ++
              udp.beUint16 (p.fftProc.workspace.magnitude.length % 2 ^ 16) ++
              (p.fftProc.workspace.magnitude.map f32).flatMap (udp.beBytes 4) },
        some (udp.beUint32 ((p.sequenceNum + 1) % 2 ^ 32) ++ udp.beInt64 now ++
          udp.beUint16 (p.fftProc.workspace.magnitude.length % 2 ^ 16) ++
          (p.fftProc.workspace.magnitude.map f32).flatMap (udp.beBytes 4))) := by
  unfold udp.buildAndSendPacket
  rw [getMagnitudesInto_of_length hlen]
  dsimp only
  by_cases hf : p.udpF32Buffer.length ≠ p.fftProc.workspace.magnitude.length
  · rw [if_pos hf, overwrite_of_length_eq (by
      rw [List.length_replicate, List.length_map])]
    rw [List.length_map]
  · push_neg at hf
    rw [if_neg (by omega), overwrite_of_length_eq (by
      rw [hf, List.length_map])]
    rw [List.length_map]

/-- The packets a wellformed publisher sends over a session carry the
sequence numbers `s+1, s+2, …` reduced mod `2^32`, where `s` is the
counter value at `Start`. -/
theorem runTicks_seqs (f32 : ℚ → Nat) :
    ∀ (ts : List Int) (p : udp.UDPPublisher),
      p.udpMagBuffer.length = p.fftProc.workspace.magnitude.length →
      (udp.runTicks f32 p ts).2.map udp.packetSeq =
        (List.range ts.length).map (fun i => (p.sequenceNum + 1 + i) % 2 ^ 32) := by
  intro ts
  induction ts with
  | nil => intro p _; rfl
  | cons t ts ih =>
    intro p hlen
    have hstep := buildAndSendPacket_of_wf f32 t p hlen
    have hseq : udp.packetSeq (udp.beUint32 ((p.sequenceNum + 1) % 2 ^ 32) ++
        udp.beInt64 t ++
        udp.beUint16 (p.fftProc.workspace.magnitude.length % 2 ^ 16) ++
        (p.fftProc.workspace.magnitude.map f32).flatMap (udp.beBytes 4)) =
        (p.sequenceNum + 1) % 2 ^ 32 := by
      unfold udp.packetSeq
      rw [(packet_fields _ t _ _).1]
      rw [show udp.beUint32 ((p.sequenceNum + 1) % 2 ^ 32) =
        udp.beBytes 4 ((p.sequenceNum + 1) % 2 ^ 32) from rfl, decodeBe_beBytes]
      have : (p.sequenceNum + 1) % 2 ^ 32 < 256 ^ 4 := by
        have := Nat.mod_lt (p.sequenceNum + 1) (y := 2 ^ 32) (by norm_num)
        norm_num at this ⊢
        omega
      exact Nat.mod_eq_of_lt this
    have htail := ih ({ p with
        sequenceNum := (p.sequenceNum + 1) % 2 ^ 32
        udpMagBuffer := p.fftProc.workspace.magnitude
        udpF32Buffer := p.fftProc.workspace.magnitude.map f32
        packetBuffer :=
          udp.beUint32 ((p.sequenceNum + 1) % 2 ^ 32) ++ udp.beInt64 t ++
            udp.beUint16 (p.fftProc.workspace.magnitude.length % 2 ^ 16) ++
            (p.fftProc.workspace.magnitude.map f32).flatMap (udp.beBytes 4) })
      (by simp)
    unfold udp.runTicks
    rw [hstep]
    simp only [List.map_cons, List.length_cons]
    rw [hseq, htail]
    rw [List.range_succ_eq_map, List.map_cons, List.map_map]
    congr 1
    apply List.map_congr_left
    intro i _
    simp only [Function.comp_apply, Nat.succ_eq_add_one]
    omega

/-! ### Claim theorems -/

/-- C1: for every capture buffer delivered to the audio callback, the FFT
processor's `Process` is run iff the noise gate permits it: with the gate
disabled the FFT runs unconditionally, and with the gate enabled it runs
iff the buffer's peak absolute amplitude (the branchless peak the hot
path computes, spec §4.E) exceeds the stored integer threshold. -/
theorem c1_gate_decision (cabs : ℚ × ℚ → ℚ) (e : audio.Engine)
    (p : analysis.FFTProcessor) (buf : List Int) :
    ((audio.processInputStreamGated cabs e p buf).2 = true ↔
      (e.gateEnabled = false ∨ e.gateThreshold < audio.computePeak buf)) ∧
    ((audio.processInputStreamGated cabs e p buf).2 = true →
      (audio.processInputStreamGated cabs e p buf).1 =
        analysis.Process cabs p buf) ∧
    ((audio.processInputStreamGated cabs e p buf).2 = false →
      (audio.processInputStreamGated cabs e p buf).1 = p) := by
  unfold audio.processInputStreamGated
  by_cases hg : (!e.gateEnabled || decide (audio.computePeak buf > e.gateThreshold)) = true
  · rw [if_pos hg]
    simp only [Bool.or_eq_true, Bool.not_eq_true', decide_eq_true_eq] at hg
    simpa using hg
  · rw [if_neg hg]
    simp only [Bool.or_eq_true, Bool.not_eq_true', decide_eq_true_eq, not_or] at hg
    simpa using hg

/-- C1 witness: a loud two-sample buffer against a threshold of 100 with
the gate enabled runs the FFT. -/
theorem c1_gate_decision_witness :
    (audio.processInputStreamGated sampleCabs
      { gateEnabled := true, gateThreshold := 100 } sampleProc8 [200, -50]).2 = true ∧
    (audio.processInputStreamGated sampleCabs
      { gateEnabled := true, gateThreshold := 100 } sampleProc8 [200, -50]).1 =
      analysis.Process sampleCabs sampleProc8 [200, -50] := by
  have h := c1_gate_decision sampleCabs
    { gateEnabled := true, gateThreshold := 100 } sampleProc8 [200, -50]
  have h2 : (audio.processInputStreamGated sampleCabs
      { gateEnabled := true, gateThreshold := 100 } sampleProc8 [200, -50]).2 = true :=
    h.1.mpr (Or.inr (by decide))
  exact ⟨h2, h.2.1 h2⟩

/-- C9: `SetGateThreshold` clamps its ratio to `[0, 1]`, and for every
ratio in `[0, 1]` the `GetGateThreshold` read-back differs from the ratio
by at most `1/1000` (round-trip through the stored `int32`). -/
theorem c9_gate_threshold_roundtrip :
    (∀ (e : audio.Engine) (r : ℚ), r < 0 →
      audio.GetGateThreshold (audio.SetGateThreshold e r) = 0) ∧
    (∀ (e : audio.Engine) (r : ℚ), 1 < r →
      audio.GetGateThreshold (audio.SetGateThreshold e r) = 1) ∧
    (∀ (e : audio.Engine) (r : ℚ), 0 ≤ r → r ≤ 1 →
      |audio.GetGateThreshold (audio.SetGateThreshold e r) - r| ≤ 1 / 1000) := by
  refine ⟨?_, ?_, ?_⟩
  · intro e r hr
    simp only [audio.SetGateThreshold, audio.GetGateThreshold, audio.goTrunc, hr]
    norm_num
  · intro e r hr
    have h0 : ¬ r < 0 := by linarith
    simp only [audio.SetGateThreshold, audio.GetGateThreshold, audio.goTrunc, h0,
      if_false]
    rw [if_pos hr]
    norm_num
  · intro e r h0 h1
    have hr0 : ¬ r < 0 := not_lt.mpr h0
    have hr1 : ¬ r > 1 := not_lt.mpr h1
    have hnn : ¬ r * 2147483647 < 0 := by
      push_neg
      positivity
    simp only [audio.SetGateThreshold, audio.GetGateThreshold, audio.goTrunc,
      hr0, hr1, if_false]
    rw [if_neg hnn]
    have hfl : ((Int.floor (r * 2147483647) : Int) : ℚ) ≤ r * 2147483647 :=
      Int.floor_le _
    have hfg : r * 2147483647 - 1 < ((Int.floor (r * 2147483647) : Int) : ℚ) :=
      Int.sub_one_lt_floor _
    have key : ((Int.floor (r * 2147483647) : Int) : ℚ) / 2147483647 - r =
        (((Int.floor (r * 2147483647) : Int) : ℚ) - r * 2147483647) / 2147483647 := by
      ring
    rw [key, abs_div, abs_of_pos (by norm_num : (0:ℚ) < 2147483647),
      div_le_div_iff₀ (by norm_num) (by norm_num : (0:ℚ) < 1000)]
    have habs : |((Int.floor (r * 2147483647) : Int) : ℚ) - r * 2147483647| ≤ 1 :=
      abs_le.mpr ⟨by linarith, by linarith⟩
    nlinarith [habs]

/-- C9 witness: the three scenario inputs `-1/10`, `3/2` and `1/2`. -/
theorem c9_gate_threshold_roundtrip_witness :
    audio.GetGateThreshold (audio.SetGateThreshold
      { gateEnabled := true, gateThreshold := 0 } (-1/10)) = 0 ∧
    audio.GetGateThreshold (audio.SetGateThreshold
      { gateEnabled := true, gateThreshold := 0 } (3/2)) = 1 ∧
    |audio.GetGateThreshold (audio.SetGateThreshold
      { gateEnabled := true, gateThreshold := 0 } (1/2)) - 1/2| ≤ 1 / 1000 :=
  ⟨c9_gate_threshold_roundtrip.1 _ _ (by norm_num),
   c9_gate_threshold_roundtrip.2.1 _ _ (by norm_num),
   c9_gate_threshold_roundtrip.2.2 _ _ (by norm_num) (by norm_num)⟩

/-- C10: `NewUDPPublisher` rejects a nil sender and a nil FFT processor:
whenever either argument is nil the result is an error carrying no
publisher. -/
theorem c10_publisher_nil_args (interval : Int) (sender : Option udp.UDPSender)
    (fftProc : Option analysis.FFTProcessor)
    (h : sender = none ∨ fftProc = none) :
    (udp.NewUDPPublisher interval sender fftProc).isOk = false := by
  rcases h with h | h
  · subst h; simp [udp.NewUDPPublisher, Except.isOk, Except.toBool]
  · subst h
    cases sender <;> simp [udp.NewUDPPublisher, Except.isOk, Except.toBool]

/-- C10 witness: a nil sender and a nil processor are each rejected. -/
theorem c10_publisher_nil_args_witness :
    (udp.NewUDPPublisher 33000000 none (some sampleProc8)).isOk = false ∧
    (udp.NewUDPPublisher 33000000 (some sampleSender) none).isOk = false :=
  ⟨c10_publisher_nil_args _ _ _ (Or.inl rfl),
   c10_publisher_nil_args _ _ _ (Or.inr rfl)⟩

/-- C2 (amended): `NextPowerOfTwo n` is `1` for `n ≤ 0`, and for
`0 < n ≤ 2^62` it is `1 <<< bits.Len64(n-1)` and the smallest power of two
that is `≥ n`; in particular `IsPowerOfTwo (NextPowerOfTwo n)` holds
there.  (For `2^62 < n` the shift overflows the 64-bit `int`; see the
counterexample.) -/
theorem c2_next_power_of_two :
    (∀ n : Int, n ≤ 0 → bitint.NextPowerOfTwo n = 1) ∧
    (∀ n : Int, 0 < n → n ≤ 2 ^ 62 →
      bitint.NextPowerOfTwo n = 2 ^ Nat.size (Int.toNat (n - 1)) ∧
      bitint.IsPowerOfTwo (bitint.NextPowerOfTwo n) = true ∧
      n ≤ bitint.NextPowerOfTwo n ∧
      (∀ m : Int, bitint.IsPowerOfTwo m = true → n ≤ m →
        bitint.NextPowerOfTwo n ≤ m)) := by
  constructor
  · intro n hn
    unfold bitint.NextPowerOfTwo
    rw [if_pos hn]
  · intro n h0 h62
    have hx : ((Int.toNat (n - 1) : Nat) : Int) = n - 1 :=
      Int.toNat_of_nonneg (by omega)
    have hxlt : Int.toNat (n - 1) < 2 ^ 62 := by
      have : ((Int.toNat (n - 1) : Nat) : Int) < ((2 ^ 62 : Nat) : Int) := by
        rw [hx]; push_cast; omega
      exact_mod_cast this
    have hL : Nat.size (Int.toNat (n - 1)) ≤ 62 := Nat.size_le.mpr hxlt
    have hLpow : (2 : Int) ^ Nat.size (Int.toNat (n - 1)) < 2 ^ 63 := by
      calc (2 : Int) ^ Nat.size (Int.toNat (n - 1)) ≤ 2 ^ 62 :=
        pow_le_pow_right₀ (by norm_num) hL
      _ < 2 ^ 63 := by norm_num
    have heq : bitint.NextPowerOfTwo n = 2 ^ Nat.size (Int.toNat (n - 1)) := by
      unfold bitint.NextPowerOfTwo
      rw [if_neg (by omega), wrap64_of_range (by positivity) hLpow]
    have hge : n ≤ 2 ^ Nat.size (Int.toNat (n - 1)) := by
      have hlt : Int.toNat (n - 1) < 2 ^ Nat.size (Int.toNat (n - 1)) :=
        Nat.lt_size_self _
      have : ((Int.toNat (n - 1) : Nat) : Int) <
          ((2 ^ Nat.size (Int.toNat (n - 1)) : Nat) : Int) := Nat.cast_lt.mpr hlt
      rw [hx] at this
      push_cast at this
      omega
    refine ⟨heq, ?_, ?_, ?_⟩
    · rw [heq]; exact isPowerOfTwo_two_pow _
    · rw [heq]; exact hge
    · intro m hm hnm
      obtain ⟨k, hk⟩ := isPowerOfTwo_elim hm
      have hxk : Int.toNat (n - 1) < 2 ^ k := by
        have : ((Int.toNat (n - 1) : Nat) : Int) < ((2 ^ k : Nat) : Int) := by
          rw [hx]; push_cast; omega
        exact_mod_cast this
      have hsk : Nat.size (Int.toNat (n - 1)) ≤ k := Nat.size_le.mpr hxk
      rw [heq, hk]
      exact pow_le_pow_right₀ (by norm_num) hsk

/-- C2 witness: `NextPowerOfTwo (-10) = 1`; `NextPowerOfTwo 1000` is a
power of two, is `≥ 1000`, and is at most the power of two `1024`. -/
theorem c2_next_power_of_two_witness :
    bitint.NextPowerOfTwo (-10) = 1 ∧
    bitint.IsPowerOfTwo (bitint.NextPowerOfTwo 1000) = true ∧
    (1000 : Int) ≤ bitint.NextPowerOfTwo 1000 ∧
    bitint.NextPowerOfTwo 1000 ≤ 1024 :=
  ⟨c2_next_power_of_two.1 (-10) (by decide),
   (c2_next_power_of_two.2 1000 (by decide) (by decide)).2.1,
   (c2_next_power_of_two.2 1000 (by decide) (by decide)).2.2.1,
   (c2_next_power_of_two.2 1000 (by decide) (by decide)).2.2.2 1024
     (by decide) (by decide)⟩

/-- C2 counterexample: at `n = 2^62 + 1` (a representable 64-bit `int`)
the shift `1 << 63` overflows Go's `int`: `NextPowerOfTwo n = -2^63`,
which is smaller than `n` and not a power of two, refuting the claim as
stated for every integer `n > 0`. -/
theorem c2_next_power_of_two_counterexample :
    bitint.NextPowerOfTwo (2 ^ 62 + 1) = -(2 ^ 63) ∧
    bitint.IsPowerOfTwo (bitint.NextPowerOfTwo (2 ^ 62 + 1)) = false ∧
    bitint.NextPowerOfTwo (2 ^ 62 + 1) < 2 ^ 62 + 1 := by
  have hx : Int.toNat ((2 : Int) ^ 62 + 1 - 1) = 2 ^ 62 := by decide
  have h1 : bitint.NextPowerOfTwo (2 ^ 62 + 1) = -(2 ^ 63) := by
    unfold bitint.NextPowerOfTwo
    rw [if_neg (by decide), hx, Nat.size_pow]
    decide
  refine ⟨h1, ?_, ?_⟩
  · rw [h1]; decide
  · rw [h1]; decide

/-- C3: `NewFFTProcessor` returns an error (and no processor) iff the FFT
size is not a positive power of two or the sample rate is not positive;
every successful construction pre-allocates input and window buffers of
length `fftSize` and spectrum and magnitude buffers of length
`fftSize/2 + 1`. -/
theorem c3_fft_constructor (newFFT : Int → List ℚ → List (ℚ × ℚ))
    (windowGain : analysis.WindowFunc → Nat → Nat → ℚ)
    (fftSize : Int) (sampleRate : ℚ) (wt : analysis.WindowFunc) :
    ((analysis.NewFFTProcessor newFFT windowGain fftSize sampleRate wt).isOk = false ↔
      (bitint.IsPowerOfTwo fftSize = false ∨ sampleRate ≤ 0)) ∧
    (∀ p, analysis.NewFFTProcessor newFFT windowGain fftSize sampleRate wt =
        Except.ok p →
      p.workspace.input.length = fftSize.toNat ∧
      p.workspace.window.length = fftSize.toNat ∧
      p.workspace.fftOutput.length = Int.toNat (fftSize / 2 + 1) ∧
      p.workspace.magnitude.length = Int.toNat (fftSize / 2 + 1)) := by
  constructor
  · have h := newFFT_ok_iff newFFT windowGain fftSize sampleRate wt
    constructor
    · intro hfalse
      by_contra hc
      push_neg at hc
      have : (analysis.NewFFTProcessor newFFT windowGain fftSize sampleRate wt).isOk
          = true := h.mpr ⟨bool_true_of_ne_false hc.1, hc.2⟩
      rw [hfalse] at this
      exact absurd this (by simp)
    · intro hor
      by_contra hc
      have hok := h.mp (bool_true_of_ne_false hc)
      rcases hor with hf | hs
      · rw [hok.1] at hf; exact absurd hf (by simp)
      · exact absurd hs (not_le.mpr hok.2)
  · intro p hp
    obtain ⟨-, -, -, hin, hout, hmag, hwin, -, -⟩ := newFFT_ok_elim hp
    refine ⟨?_, ?_, ?_, ?_⟩
    · rw [hin, List.length_replicate]
    · rw [hwin, applyWindow_length, List.length_replicate]
    · rw [hout, List.length_replicate]
    · rw [hmag, List.length_replicate]

/-- C3 witness: `fftSize = 8`, `sampleRate = 44100`, Hann window succeeds
with the stated buffer lengths; `fftSize = 12` and `sampleRate = 0` fail. -/
theorem c3_fft_constructor_witness :
    (analysis.NewFFTProcessor sampleNewFFT sampleGain 8 44100
      analysis.WindowFunc.Hann).isOk = true ∧
    sampleProc8.workspace.input.length = (8 : Int).toNat ∧
    sampleProc8.workspace.window.length = (8 : Int).toNat ∧
    sampleProc8.workspace.fftOutput.length = Int.toNat ((8 : Int) / 2 + 1) ∧
    sampleProc8.workspace.magnitude.length = Int.toNat ((8 : Int) / 2 + 1) ∧
    (analysis.NewFFTProcessor sampleNewFFT sampleGain 12 44100
      analysis.WindowFunc.Hann).isOk = false ∧
    (analysis.NewFFTProcessor sampleNewFFT sampleGain 8 0
      analysis.WindowFunc.Hann).isOk = false := by
  have h8 := c3_fft_constructor sampleNewFFT sampleGain 8 44100
    analysis.WindowFunc.Hann
  have h12 := c3_fft_constructor sampleNewFFT sampleGain 12 44100
    analysis.WindowFunc.Hann
  have h0 := c3_fft_constructor sampleNewFFT sampleGain 8 0
    analysis.WindowFunc.Hann
  have hlen := h8.2 sampleProc8 rfl
  refine ⟨?_, hlen.1, hlen.2.1, hlen.2.2.1, hlen.2.2.2, ?_, ?_⟩
  · have := h8.1
    cases hok : (analysis.NewFFTProcessor sampleNewFFT sampleGain 8 44100
      analysis.WindowFunc.Hann).isOk
    · rw [hok] at this
      rcases this.mp rfl with hf | hs
      · exact absurd hf (by decide)
      · exact absurd hs (by norm_num)
    · rfl
  · exact h12.1.mpr (Or.inl (by decide))
  · exact h0.1.mpr (Or.inr (by norm_num))

/-- C5: `GetMagnitudesInto` errors iff the destination length differs
from `fftSize/2 + 1`; on error the destination is untouched (and the
processor, a read-only receiver here, is unchanged), on success the
destination holds a copy of the most recent magnitudes. -/
theorem c5_magnitudes_into (newFFT : Int → List ℚ → List (ℚ × ℚ))
    (windowGain : analysis.WindowFunc → Nat → Nat → ℚ)
    (fftSize : Int) (sampleRate : ℚ) (wt : analysis.WindowFunc)
    (p : analysis.FFTProcessor)
    (hp : analysis.NewFFTProcessor newFFT windowGain fftSize sampleRate wt =
      Except.ok p)
    (dest : List ℚ) :
    ((analysis.GetMagnitudesInto p dest).2 ≠ none ↔
      dest.length ≠ Int.toNat (fftSize / 2 + 1)) ∧
    ((analysis.GetMagnitudesInto p dest).2 ≠ none →
      (analysis.GetMagnitudesInto p dest).1 = dest) ∧
    ((analysis.GetMagnitudesInto p dest).2 = none →
      (analysis.GetMagnitudesInto p dest).1 = p.workspace.magnitude) := by
  obtain ⟨-, -, -, -, -, hmag, -, -, -⟩ := newFFT_ok_elim hp
  have hlen : p.workspace.magnitude.length = Int.toNat (fftSize / 2 + 1) := by
    rw [hmag, List.length_replicate]
  unfold analysis.GetMagnitudesInto
  by_cases h : dest.length ≠ p.workspace.magnitude.length
  · rw [if_pos h]
    rw [hlen] at h
    simp [h]
  · rw [if_neg h]
    push_neg at h
    rw [hlen] at h
    refine ⟨by simp [h], fun hne => absurd rfl hne,
      fun _ => overwrite_of_length_eq ?_⟩
    rw [h, hlen]

/-- C5 witness: on `sampleProc8` a 4-entry destination is rejected
unchanged and a 5-entry destination receives the magnitudes. -/
theorem c5_magnitudes_into_witness :
    ((analysis.GetMagnitudesInto sampleProc8 [1, 2, 3, 4]).2 ≠ none ↔
      ([1, 2, 3, 4] : List ℚ).length ≠ Int.toNat ((8 : Int) / 2 + 1)) ∧
    (analysis.GetMagnitudesInto sampleProc8 [1, 2, 3, 4]).1 = [1, 2, 3, 4] ∧
    (analysis.GetMagnitudesInto sampleProc8 [1, 2, 3, 4, 5]).1 =
      sampleProc8.workspace.magnitude := by
  have h4 := c5_magnitudes_into sampleNewFFT sampleGain 8 44100
    analysis.WindowFunc.Hann sampleProc8 rfl [1, 2, 3, 4]
  have h5 := c5_magnitudes_into sampleNewFFT sampleGain 8 44100
    analysis.WindowFunc.Hann sampleProc8 rfl [1, 2, 3, 4, 5]
  exact ⟨h4.1, h4.2.1 (h4.1.mpr (by decide)), h5.2.2 (by decide)⟩

/-- C4: for a validly constructed processor, `Process` accepts a buffer
of any length: samples past `fftSize - 1` are ignored (processing the
buffer equals processing its first `fftSize` samples), positions from the
buffer length up to `fftSize` are zero-padded, and after every `Process`
call in any sequence of calls the magnitudes exposed to readers have
length exactly `fftSize/2 + 1`. -/
theorem c4_process_invariants (cabs : ℚ × ℚ → ℚ)
    (newFFT : Int → List ℚ → List (ℚ × ℚ))
    (windowGain : analysis.WindowFunc → Nat → Nat → ℚ)
    (fftSize : Int) (sampleRate : ℚ) (wt : analysis.WindowFunc)
    (p : analysis.FFTProcessor)
    (hp : analysis.NewFFTProcessor newFFT windowGain fftSize sampleRate wt =
      Except.ok p)
    (bufs : List (List Int)) (buf : List Int) :
    (analysis.GetMagnitudes
        (analysis.Process cabs (bufs.foldl (analysis.Process cabs) p) buf)).length =
      Int.toNat (fftSize / 2 + 1) ∧
    analysis.Process cabs (bufs.foldl (analysis.Process cabs) p) buf =
      analysis.Process cabs (bufs.foldl (analysis.Process cabs) p)
        (buf.take fftSize.toNat) ∧
    (analysis.Process cabs (bufs.foldl (analysis.Process cabs) p)
        buf).workspace.input.drop buf.length =
      List.replicate (fftSize.toNat - buf.length) 0 := by
  obtain ⟨hsz, -, -, -, -, hmag, -, -, -⟩ := newFFT_ok_elim hp
  have hfold : (bufs.foldl (analysis.Process cabs) p).fftSize = fftSize := by
    rw [foldl_process_fftSize, hsz]
  refine ⟨?_, ?_, ?_⟩
  · unfold analysis.GetMagnitudes
    rw [process_magnitude_length, foldl_process_magnitude_length, hmag,
      List.length_replicate]
  · have h := windowedInput_take (bufs.foldl (analysis.Process cabs) p) buf
    rw [hfold] at h
    exact process_congr cabs _ h
  · have h := windowedInput_zero_pad (bufs.foldl (analysis.Process cabs) p) buf
    rw [hfold] at h
    exact h

/-- C4 witness: on `sampleProc8` (FFT size 8), after one prior call, a
10-sample buffer is processed like its 8-sample prefix and the magnitude
length is 5. -/
theorem c4_process_invariants_witness :
    (analysis.GetMagnitudes (analysis.Process sampleCabs
        ([[1, 2]].foldl (analysis.Process sampleCabs) sampleProc8)
        [1, 2, 3, 4, 5, 6, 7, 8, 9, 10])).length = Int.toNat ((8 : Int) / 2 + 1) ∧
    analysis.Process sampleCabs
        ([[1, 2]].foldl (analysis.Process sampleCabs) sampleProc8)
        [1, 2, 3, 4, 5, 6, 7, 8, 9, 10] =
      analysis.Process sampleCabs
        ([[1, 2]].foldl (analysis.Process sampleCabs) sampleProc8)
        (([1, 2, 3, 4, 5, 6, 7, 8, 9, 10] : List Int).take (8 : Int).toNat) ∧
    (analysis.Process sampleCabs
        ([[1, 2]].foldl (analysis.Process sampleCabs) sampleProc8)
        [1, 2, 3, 4, 5, 6, 7, 8, 9, 10]).workspace.input.drop
        ([1, 2, 3, 4, 5, 6, 7, 8, 9, 10] : List Int).length =
      List.replicate ((8 : Int).toNat -
        ([1, 2, 3, 4, 5, 6, 7, 8, 9, 10] : List Int).length) 0 :=
  c4_process_invariants sampleCabs sampleNewFFT sampleGain 8 44100
    analysis.WindowFunc.Hann sampleProc8 rfl [[1, 2]]
    [1, 2, 3, 4, 5, 6, 7, 8, 9, 10]

/-- C8: `GetFrequencyForBin i` is `i * sampleRate / fftSize` for
`0 ≤ i ≤ fftSize/2` and `0.0` for every other integer bin index. -/
theorem c8_frequency_for_bin (newFFT : Int → List ℚ → List (ℚ × ℚ))
    (windowGain : analysis.WindowFunc → Nat → Nat → ℚ)
    (fftSize : Int) (sampleRate : ℚ) (wt : analysis.WindowFunc)
    (p : analysis.FFTProcessor)
    (hp : analysis.NewFFTProcessor newFFT windowGain fftSize sampleRate wt =
      Except.ok p)
    (i : Int) :
    (0 ≤ i → i ≤ fftSize / 2 →
      analysis.GetFrequencyForBin p i = (i : ℚ) * (sampleRate / (fftSize : ℚ))) ∧
    (i < 0 ∨ fftSize / 2 < i → analysis.GetFrequencyForBin p i = 0) := by
  obtain ⟨hsz, hrate, -, -, hout, -, -, hpow, -⟩ := newFFT_ok_elim hp
  have hpos : 0 < fftSize := isPowerOfTwo_pos hpow
  have hhalf : 0 ≤ fftSize / 2 := Int.ediv_nonneg hpos.le (by norm_num)
  have hcast : ((p.workspace.fftOutput.length : Nat) : Int) = fftSize / 2 + 1 := by
    rw [hout, List.length_replicate, Int.toNat_of_nonneg (by omega)]
  constructor
  · intro h0 h1
    unfold analysis.GetFrequencyForBin
    rw [if_neg]
    · rw [hsz, hrate]
    · rw [hcast]
      push_neg
      exact ⟨h0, by omega⟩
  · intro h
    unfold analysis.GetFrequencyForBin
    rw [if_pos]
    rw [hcast]
    omega

/-- C8 witness: with `fftSize = 1024` and `sampleRate = 44100`, bin 0 maps
to `0`, bin 512 to `22050`, and bin 513 (out of range) to `0`. -/
theorem c8_frequency_for_bin_witness :
    analysis.GetFrequencyForBin sampleProc1024 0 = 0 ∧
    analysis.GetFrequencyForBin sampleProc1024 512 = 22050 ∧
    analysis.GetFrequencyForBin sampleProc1024 513 = 0 := by
  have h0 := c8_frequency_for_bin sampleNewFFT sampleGain 1024 44100
    analysis.WindowFunc.Hann sampleProc1024 rfl 0
  have h512 := c8_frequency_for_bin sampleNewFFT sampleGain 1024 44100
    analysis.WindowFunc.Hann sampleProc1024 rfl 512
  have h513 := c8_frequency_for_bin sampleNewFFT sampleGain 1024 44100
    analysis.WindowFunc.Hann sampleProc1024 rfl 513
  refine ⟨?_, ?_, ?_⟩
  · rw [h0.1 (by decide) (by decide)]; norm_num
  · rw [h512.1 (by decide) (by decide)]; norm_num
  · exact h513.2 (Or.inr (by decide))

/-- C6 (amended): every datagram a wellformed publisher builds and hands
to the sender has total size `14 + 4N` bytes with `N = fftSize/2 + 1`; its
first 14 bytes are, in big-endian order, a `uint32` sequence number, an
`int64` nanosecond timestamp, and a `uint16` magnitude count equal to `N`
provided `N < 2^16`, followed by exactly `N` big-endian 4-byte `float32`
magnitudes.  (For `N ≥ 2^16` the count field holds `N mod 2^16`; see the
counterexample.) -/
theorem c6_packet_layout (f32 : ℚ → Nat) (now : Int) (p : udp.UDPPublisher)
    (hlen : p.udpMagBuffer.length = p.fftProc.workspace.magnitude.length)
    (hN : p.fftProc.workspace.magnitude.length =
      Int.toNat (p.fftProc.fftSize / 2 + 1))
    (hsmall : Int.toNat (p.fftProc.fftSize / 2 + 1) < 2 ^ 16) :
    (udp.buildAndSendPacket f32 now p).2 =
      some (udp.beUint32 ((p.sequenceNum + 1) % 2 ^ 32) ++ udp.beInt64 now ++
        udp.beUint16 (Int.toNat (p.fftProc.fftSize / 2 + 1)) ++
        (p.fftProc.workspace.magnitude.map f32).flatMap (udp.beBytes 4)) ∧
    (∀ pkt, (udp.buildAndSendPacket f32 now p).2 = some pkt →
      pkt.length = 14 + 4 * Int.toNat (p.fftProc.fftSize / 2 + 1) ∧
      udp.decodeBe (pkt.take 4) = (p.sequenceNum + 1) % 2 ^ 32 ∧
      udp.decodeBe ((pkt.drop 4).take 8) = (now % 2 ^ 64).toNat ∧
      udp.decodeBe ((pkt.drop 12).take 2) =
        Int.toNat (p.fftProc.fftSize / 2 + 1)) := by
  have hcount : p.fftProc.workspace.magnitude.length % 2 ^ 16 =
      Int.toNat (p.fftProc.fftSize / 2 + 1) := by
    rw [hN]
    exact Nat.mod_eq_of_lt hsmall
  have hmain := buildAndSendPacket_of_wf f32 now p hlen
  have hpkt : (udp.buildAndSendPacket f32 now p).2 =
      some (udp.beUint32 ((p.sequenceNum + 1) % 2 ^ 32) ++ udp.beInt64 now ++
        udp.beUint16 (Int.toNat (p.fftProc.fftSize / 2 + 1)) ++
        (p.fftProc.workspace.magnitude.map f32).flatMap (udp.beBytes 4)) := by
    rw [hmain, hcount]
  refine ⟨hpkt, ?_⟩
  intro pkt hp
  rw [hpkt] at hp
  cases hp
  have hf := packet_fields ((p.sequenceNum + 1) % 2 ^ 32) now
    (Int.toNat (p.fftProc.fftSize / 2 + 1))
    ((p.fftProc.workspace.magnitude.map f32).flatMap (udp.beBytes 4))
  refine ⟨?_, ?_, ?_, ?_⟩
  · rw [hf.2.2.2, flatMap_beBytes4_length, List.length_map, hN]
  · rw [hf.1]
    simp only [udp.beUint32]
    rw [decodeBe_beBytes]
    have h1 : (p.sequenceNum + 1) % 2 ^ 32 < 2 ^ 32 :=
      Nat.mod_lt _ (by norm_num)
    norm_num at h1 ⊢
    try omega
  · rw [hf.2.1]
    simp only [udp.beInt64]
    rw [decodeBe_beBytes]
    have h1 : now % 2 ^ 64 < 2 ^ 64 :=
      Int.emod_lt_of_pos now (by norm_num)
    have h2 : (0 : Int) ≤ now % 2 ^ 64 :=
      Int.emod_nonneg now (by norm_num)
    norm_num at h1 h2 ⊢
    try omega
  · rw [hf.2.2.1]
    simp only [udp.beUint16]
    rw [decodeBe_beBytes]
    norm_num at hsmall ⊢
    try omega

/-- C6 witness: one tick of the publisher over the 8-point processor at
time 7 emits the 34-byte packet whose header fields decode to sequence 1,
timestamp 7 and count 5. -/
theorem c6_packet_layout_witness :
    (udp.buildAndSendPacket f32zero 7 samplePub).2 =
      some (udp.beUint32 ((samplePub.sequenceNum + 1) % 2 ^ 32) ++
        udp.beInt64 7 ++
        udp.beUint16 (Int.toNat (samplePub.fftProc.fftSize / 2 + 1)) ++
        (samplePub.fftProc.workspace.magnitude.map f32zero).flatMap
          (udp.beBytes 4)) ∧
    ∀ pkt, (udp.buildAndSendPacket f32zero 7 samplePub).2 = some pkt →
      pkt.length = 14 + 4 * Int.toNat (samplePub.fftProc.fftSize / 2 + 1) ∧
      udp.decodeBe (pkt.take 4) = (samplePub.sequenceNum + 1) % 2 ^ 32 ∧
      udp.decodeBe ((pkt.drop 4).take 8) = ((7 : Int) % 2 ^ 64).toNat ∧
      udp.decodeBe ((pkt.drop 12).take 2) =
        Int.toNat (samplePub.fftProc.fftSize / 2 + 1) :=
  c6_packet_layout f32zero 7 samplePub (by rfl) (by rfl) (by decide)

/-- C6 counterexample: with `fftSize = 2^17` the publisher is validly
constructed with `N = 65537` magnitudes per packet, but the emitted
packet's `uint16` count field decodes to `65537 % 2^16 = 1`, not `N`,
refuting the claim as stated for every `fftSize`. -/
theorem c6_packet_layout_counterexample :
    udp.decodeBe ((((udp.buildAndSendPacket f32zero 0 bigPub).2.getD []).drop
      12).take 2) = 1 ∧
    Int.toNat (bigPub.fftProc.fftSize / 2 + 1) = 65537 ∧ (1 : Nat) ≠ 65537 := by
  have e1 : bigPub.udpMagBuffer = List.replicate 65537 (0 : ℚ) := rfl
  have e2 : bigPub.fftProc.workspace.magnitude = List.replicate 65537 (0 : ℚ) := rfl
  have hlen : bigPub.udpMagBuffer.length =
      bigPub.fftProc.workspace.magnitude.length := by
    rw [e1, e2]
  have hmain := buildAndSendPacket_of_wf f32zero 0 bigPub hlen
  have hf := packet_fields ((bigPub.sequenceNum + 1) % 2 ^ 32) 0
    (bigPub.fftProc.workspace.magnitude.length % 2 ^ 16)
    ((bigPub.fftProc.workspace.magnitude.map f32zero).flatMap (udp.beBytes 4))
  refine ⟨?_, by decide, by decide⟩
  rw [hmain]
  simp only [Option.getD_some]
  rw [hf.2.2.1]
  simp only [udp.beUint16]
  rw [decodeBe_beBytes]
  have hml : bigPub.fftProc.workspace.magnitude.length = 65537 := by
    rw [e2, List.length_replicate]
  rw [hml]
  norm_num

/-- C7 (amended): within one `Start`..`Stop` session of a wellformed
publisher, every tick emits a packet and increments the sequence counter;
the emitted sequence numbers are `s+1, s+2, …` reduced mod `2^32`
(consecutive packets differ by exactly one mod `2^32`), and provided at
most `2^32` packets are emitted in the session no sequence number repeats.
(After `2^32` packets the `uint32` counter has wrapped to its starting
value; see the counterexample.) -/
theorem c7_sequence_monotone (f32 : ℚ → Nat) (p : udp.UDPPublisher)
    (ts : List Int)
    (hlen : p.udpMagBuffer.length = p.fftProc.workspace.magnitude.length) :
    ((udp.runTicks f32 p ts).2.map udp.packetSeq =
      (List.range ts.length).map (fun i => (p.sequenceNum + 1 + i) % 2 ^ 32)) ∧
    (∀ j, j + 1 < ts.length →
      ((udp.runTicks f32 p ts).2.map udp.packetSeq).getD (j + 1) 0 =
        (((udp.runTicks f32 p ts).2.map udp.packetSeq).getD j 0 + 1) % 2 ^ 32) ∧
    (ts.length ≤ 2 ^ 32 →
      ((udp.runTicks f32 p ts).2.map udp.packetSeq).Nodup) := by
  have hform := runTicks_seqs f32 ts p hlen
  refine ⟨hform, ?_, ?_⟩
  · intro j hj
    rw [hform]
    have hl : ((List.range ts.length).map
        (fun i => (p.sequenceNum + 1 + i) % 2 ^ 32)).length = ts.length := by
      rw [List.length_map, List.length_range]
    rw [List.getD_eq_getElem _ _ (by omega), List.getD_eq_getElem _ _ (by omega),
      List.getElem_map, List.getElem_map, List.getElem_range, List.getElem_range]
    omega
  · intro hle
    rw [hform]
    apply List.Nodup.map_on
    · intro i hi j hj hij
      rw [List.mem_range] at hi hj
      have hmodeq : i ≡ j [MOD 2 ^ 32] := by
        have h : p.sequenceNum + 1 + i ≡ p.sequenceNum + 1 + j [MOD 2 ^ 32] := hij
        exact Nat.ModEq.add_left_cancel' (p.sequenceNum + 1) h
      have hmods : i % 2 ^ 32 = j % 2 ^ 32 := hmodeq
      rw [Nat.mod_eq_of_lt (by omega), Nat.mod_eq_of_lt (by omega)] at hmods
      exact hmods
    · exact List.nodup_range ts.length

/-- C7 witness: three ticks of the fresh publisher emit sequence numbers
`1, 2, 3`, consecutive and distinct. -/
theorem c7_sequence_monotone_witness :
    ((udp.runTicks f32zero samplePub [6, 7, 8]).2.map udp.packetSeq =
      (List.range 3).map (fun i => (samplePub.sequenceNum + 1 + i) % 2 ^ 32)) ∧
    ((udp.runTicks f32zero samplePub [6, 7, 8]).2.map udp.packetSeq).getD 1 0 =
      (((udp.runTicks f32zero samplePub [6, 7, 8]).2.map
        udp.packetSeq).getD 0 0 + 1) % 2 ^ 32 ∧
    ((udp.runTicks f32zero samplePub [6, 7, 8]).2.map udp.packetSeq).Nodup :=
  ⟨(c7_sequence_monotone f32zero samplePub [6, 7, 8] rfl).1,
   (c7_sequence_monotone f32zero samplePub [6, 7, 8] rfl).2.1 0 (by norm_num),
   (c7_sequence_monotone f32zero samplePub [6, 7, 8] rfl).2.2 (by norm_num)⟩

/-- C7 counterexample: a session of `2^32 + 1` ticks emits `2^32 + 1`
packets whose sequence numbers are not pairwise distinct (the `uint32`
counter wraps), refuting the no-repeat part of the claim for unbounded
sessions. -/
theorem c7_sequence_monotone_counterexample :
    ¬ ((udp.runTicks f32zero samplePub
        (List.replicate (2 ^ 32 + 1) 0)).2.map udp.packetSeq).Nodup := by
  intro hnd
  have hform := runTicks_seqs f32zero (List.replicate (2 ^ 32 + 1) 0)
    samplePub rfl
  rw [List.length_replicate] at hform
  rw [hform] at hnd
  have hinj := List.inj_on_of_nodup_map hnd
    (x := 0) (List.mem_range.mpr (by norm_num))
    (y := 2 ^ 32) (List.mem_range.mpr (by norm_num))
  have h0 : (samplePub.sequenceNum + 1 + 0) % 2 ^ 32 =
      (samplePub.sequenceNum + 1 + 2 ^ 32) % 2 ^ 32 := by
    show (0 + 1 + 0) % 2 ^ 32 = (0 + 1 + 2 ^ 32) % 2 ^ 32
    norm_num
  have := hinj h0
  exact absurd this (by norm_num)
